import Mathlib

/-!
Verification of the `omero-mkngff` migration engine
(`src/omero_mkngff/__init__.py`) against its specification.

The development shallowly embeds the program:

* filesystem trees are the mutual inductives `FSNode` / `FSList`
  (directory listing order is the list order, matching `Path.iterdir`);
* paths are component lists; `renderAbs` renders them the way `str(Path)`
  renders an absolute POSIX path;
* `walkNode` / `walkFSList` embed `MkngffControl.walk`;
* `buildRowsAux` embeds the row-building loop of `MkngffControl.sql`
  (lines 193-211), `create_symlink` embeds `MkngffControl.create_symlink`,
  `sql` embeds `MkngffControl.sql`, `symlinkCmd` embeds
  `MkngffControl.symlink`;
* the external collaborators (`get_prefix` database lookup, `get_uuid`
  managed-repository lookup, on-disk existence of the symlink target) are
  inputs in `SqlEnv`; `self.ctx.die` and uncaught Python exceptions are the
  error results of `MkErr`; `self.ctx.out` is the accumulated `out` list.
-/

namespace Mkngff

/-- The module-level constant `SUFFIX = "mkngff"`. -/
def SUFFIX : String := "mkngff"

/-! ## Strings and paths -/

/-- True when `a` starts with `b` (Python `a.startswith(b)`). -/
def strStartsWith (a b : String) : Bool := b.data.isPrefixOf a.data

/-- True when `a` ends with `b` (Python `a.endswith(b)`). -/
def strEndsWith (a b : String) : Bool := b.data.isSuffixOf a.data

/-- Python `s[1:]`. -/
def strTail (s : String) : String := ⟨s.data.drop 1⟩

/-- Python `s[:-1]`. -/
def strDropLast (s : String) : String := ⟨s.data.dropLast⟩

/-- One step list of `str.replace(pat, "")`: delete every (non-overlapping,
leftmost-first) occurrence of `pat`.  `fuel` bounds the number of steps; any
`fuel ≥ s.length` computes the full replacement. -/
def listDropOccs : Nat → List Char → List Char → List Char
  | _, _, [] => []
  | 0, _, s => s
  | fuel+1, pat, c :: rest =>
    if pat.isPrefixOf (c :: rest) && !pat.isEmpty then
      listDropOccs fuel pat (List.drop pat.length (c :: rest))
    else c :: listDropOccs fuel pat rest

/-- Python `s.replace(pat, "")`: global deletion of every occurrence of
`pat`, scanning left to right. -/
def replaceDel (s pat : String) : String :=
  ⟨listDropOccs s.data.length pat.data s.data⟩

/-- Split a character list on a separator, Python `s.split(sep)` style
(never returns an empty list). -/
def splitOnChar (sep : Char) : List Char → List (List Char)
  | [] => [[]]
  | c :: rest =>
    let r := splitOnChar sep rest
    if c == sep then [] :: r
    else
      match r with
      | [] => [[c]]
      | h :: t => (c :: h) :: t

/-- Join character lists with a separator character. -/
def joinChar (sep : Char) : List (List Char) → List Char
  | [] => []
  | [x] => x
  | x :: rest => x ++ sep :: joinChar sep rest

/-- Python `s.rsplit("/", 1)` unpacked into two strings, for an `s`
containing at least one `/` (the template prefixes the code handles always
do): everything before the last `/`, and everything after it. -/
def rsplit1 (s : String) : String × String :=
  let parts := splitOnChar '/' s.data
  (⟨joinChar '/' parts.dropLast⟩, ⟨parts.getLastD []⟩)

/-- Render an absolute path from its components, the way `str(Path)` does
for an absolute POSIX path (`[] ↦ "/"`, `["a","b"] ↦ "/a/b"`). -/
def renderAbs (cs : List String) : String :=
  if cs.isEmpty then "/" else cs.foldl (fun acc c => acc ++ "/" ++ c) ""

/-- First index at which `pat` occurs in the character list, if any. -/
def firstPosAux (pat : List Char) : List Char → Nat → Option Nat
  | [], i => if pat.isEmpty then some i else none
  | s@(_ :: rest), i => if pat.isPrefixOf s then some i else firstPosAux pat rest (i+1)

/-- First index at which `pat` occurs in `s` as a substring, if any. -/
def firstPos (s pat : String) : Option Nat := firstPosAux pat.data s.data 0

/-! ## The container tree and `walk` (source lines 275-288) -/

mutual
inductive FSNode where
  | file : String → FSNode
  | dir : String → FSList → FSNode
deriving Repr, DecidableEq
inductive FSList where
  | nil : FSList
  | cons : FSNode → FSList → FSList
deriving Repr, DecidableEq
end

/-- The children of a directory as an ordinary list. -/
def FSList.toList : FSList → List FSNode
  | .nil => []
  | .cons c rest => c :: rest.toList

/-- The entry's own name (`p.name`). -/
def nodeName : FSNode → String
  | .file n => n
  | .dir n _ => n

/-- `(p / marker).exists()`: some direct child carries the given name. -/
def hasName : FSList → String → Bool
  | .nil, _ => false
  | .cons c rest, n => (nodeName c == n) || hasName rest n

/-- One row yielded by `walk`: the tuple `(p.parent, p.name, mime)`.  The
first component is the PARENT directory of the yielded entry, as in the
source. -/
structure WRow where
  parent : List String
  name : String
  mime : String
deriving Repr, DecidableEq

mutual
/-- The body of the `for p in path.iterdir()` loop of `walk` for a single
child `p` of the directory at path `parent`: a file is yielded as an
octet-stream row; a directory with a `.zarray` marker is yielded as a
`Directory` row and not recursed into; a directory with a `.zgroup` marker
(and no `.zarray`) is yielded as a `Directory` row followed by the rows of
the recursive walk; a directory with neither marker is skipped (`continue`). -/
def walkNode (parent : List String) : FSNode → List WRow
  | .file n => [⟨parent, n, "application/octet-stream"⟩]
  | .dir n kids =>
    let is_array := hasName kids ".zarray"
    if is_array || hasName kids ".zgroup" then
      ⟨parent, n, "Directory"⟩ ::
        (if is_array then [] else walkFSList (parent ++ [n]) kids)
    else []

/-- `walk(path)` for the directory at path `parent` whose children are
`cs`, in directory-listing order. -/
def walkFSList (parent : List String) : FSList → List WRow
  | .nil => []
  | .cons c rest => walkNode parent c ++ walkFSList parent rest
end

/-! ## Migration rows and the row-building loop (source lines 193-211) -/

/-- One entry of the `rows` list of `sql`, kept structured: the three
strings interpolated into the `ROW` template. -/
structure MRow where
  path : String
  name : String
  mime : String
deriving Repr, DecidableEq

/-- The `ROW` template: `          ['{PATH}', '{NAME}', '{MIME}']`. -/
def rowText (r : MRow) : String :=
  "          [\x27" ++ r.path ++ "\x27, \x27" ++ r.name ++ "\x27, \x27" ++ r.mime ++ "\x27]"

/-- Python `",\n".join(rows)` after formatting each row. -/
def joinRows : List MRow → String
  | [] => ""
  | [r] => rowText r
  | r :: rest => rowText r ++ ",\n" ++ joinRows rest

/-- The per-row path rewrite of `sql` (lines 198-201): render the entry's
parent path, delete every occurrence of the container root's parent path
string, strip one leading `/` if present, and prepend
`{prefix_path}/{prefix_name}_{SUFFIX}/`. -/
def fullPathOf (prefix_path prefix_name parentStr : String) (rparent : List String) : String :=
  let row_path0 := replaceDel (renderAbs rparent) parentStr
  let row_path := if strStartsWith row_path0 "/" then strTail row_path0 else row_path0
  prefix_path ++ "/" ++ prefix_name ++ "_" ++ SUFFIX ++ "/" ++ row_path

/-- The `setid_target` update of lines 202-204.  The Python condition is
`setid_target is None and row_name == ".zattrs" or row_name ==
"METADATA.ome.xml"`, which by operator precedence is
`(setid_target is None and row_name == ".zattrs") or
(row_name == "METADATA.ome.xml")`. -/
def descriptorStep (setid : Option (String × String)) (full nm : String) :
    Option (String × String) :=
  if (setid.isNone && nm == ".zattrs") || nm == "METADATA.ome.xml" then some (full, nm)
  else setid

/-- The `for row_path, row_name, row_mime in self.walk(...)` loop of `sql`:
builds the `rows` list (in emission order) and the final `setid_target`. -/
def buildRowsAux (prefix_path prefix_name parentStr : String) :
    List WRow → Option (String × String) → List MRow × Option (String × String)
  | [], setid => ([], setid)
  | w :: ws, setid =>
    let row_full_path := fullPathOf prefix_path prefix_name parentStr w.parent
    let setid1 := descriptorStep setid row_full_path w.name
    let rec_result := buildRowsAux prefix_path prefix_name parentStr ws setid1
    (⟨row_full_path ++ "/", w.name, w.mime⟩ :: rec_result.1, rec_result.2)

/-! ## Filesystem state and `create_symlink` (source lines 255-273) -/

/-- The mutable filesystem state under the managed repository: existing
directories and existing symlinks `(source path, target path)`.  (The
`target_is_directory` flag passed to `os.symlink` only selects the symlink
flavour on Windows and is not modelled.) -/
structure FS where
  dirs : List String
  symlinks : List (String × String)
deriving Repr, DecidableEq

/-- The failure outcomes of the embedded operations: `die(400)` in
`get_prefix`, `die(401)` in `sql`, `die(402)` in `create_symlink`, the
`FileExistsError` that `os.symlink` raises when the source path already
exists, the uncaught `TypeError` of line 214 when `setid_target` is still
`None`, and `die(402)` in `get_uuid`. -/
inductive MkErr where
  | wrongFilesetCount
  | symlinkTargetMissing
  | filesetDirMissing
  | symlinkExists
  | noSetIdTarget
  | noManagedRepo
deriving Repr, DecidableEq

/-- `os.makedirs(d, exist_ok=True)`: idempotent directory creation. -/
def addDir (fs : FS) (d : String) : FS :=
  if fs.dirs.contains d then fs else { fs with dirs := fs.dirs ++ [d] }

/-- A path exists in the managed-repository state (as directory or
symlink). -/
def existsPath (fs : FS) (p : String) : Bool :=
  fs.dirs.contains p || fs.symlinks.any (fun e => e.1 == p)

/-- The symlink source path `create_symlink` computes:
`os.path.join(f"{os.path.join(symlink_repo, prefix)}_{SUFFIX}", symlink_path.name)`. -/
def symlinkSourcePath (symlink_repo pfx : String) (targetComps : List String) : String :=
  symlink_repo ++ "/" ++ pfx ++ "_" ++ SUFFIX ++ "/" ++ (targetComps.getLast?.getD "")

/-- `MkngffControl.create_symlink`: check that the fileset's prefix
directory exists (else `die(402)`), create the `_SUFFIX` mirror directory
idempotently, then `os.symlink` — which fails with `FileExistsError` when
the source path already exists, whatever it points to, and otherwise
records the new symlink. -/
def create_symlink (fs : FS) (symlink_repo pfx : String) (targetComps : List String) :
    FS × Option MkErr :=
  let prefix_dir := symlink_repo ++ "/" ++ pfx
  if !fs.dirs.contains prefix_dir then (fs, some .filesetDirMissing)
  else
    let symlink_dir := prefix_dir ++ "_" ++ SUFFIX
    let fs1 := addDir fs symlink_dir
    let symlink_source := symlink_dir ++ "/" ++ (targetComps.getLast?.getD "")
    if existsPath fs1 symlink_source then (fs1, some .symlinkExists)
    else ({ fs1 with symlinks := fs1.symlinks ++ [(symlink_source, renderAbs targetComps)] },
          none)

/-! ## The `sql` and `symlink` commands (source lines 175-231) -/

/-- The command-line arguments of the `sql` / `symlink` subcommands.  The
symlink target path is carried as its absolute-path components
(`renderAbs args.targetComps` is the `args.symlink_target` string). -/
structure Args where
  fileset_id : Int
  secret : String
  symlink_repo : Option String
  targetComps : List String
deriving Repr, DecidableEq

/-- The external collaborators of a run: the fileset's `templatePrefix`
(none when the fileset lookup finds zero or several records and
`get_prefix` dies), the managed repository hash (none when `get_uuid`
finds no managed repository and dies), and the on-disk content of the
symlink target (none when `Path(args.symlink_target).exists()` is false). -/
structure SqlEnv where
  templatePrefix : Option String
  uuid : Option String
  targetTree : Option FSList
deriving Repr, DecidableEq

/-- `MkngffControl.get_prefix`: the fileset's `templatePrefix` with a
trailing `/` dropped. -/
def get_prefix (env : SqlEnv) : Option String :=
  env.templatePrefix.map (fun p => if strEndsWith p "/" then strDropLast p else p)

/-- The `UPDATE pixels ...` line of source line 216. -/
def updatePixelsLine (fname fpath : String) (fid : Int) : String :=
  "UPDATE pixels SET name = \x27" ++ fname ++ "\x27, path = \x27" ++ fpath ++
    "\x27 where image in (select id from Image where fileset = " ++ toString fid ++ ");"

/-- The `TEMPLATE` transaction script (source lines 123-135), with
`OLD_FILESET`, `UUID` (the `--secret`), `REPO` (the managed repository
hash), `PREFIX` and `ROWS` interpolated. -/
def templateText (old : Int) (uuid repo pfx : String) (rows : List MRow) : String :=
  "\nbegin;\n    select mkngff_fileset(\n      " ++ toString old ++ ",\n      \x27"
    ++ uuid ++ "\x27,\n      \x27" ++ repo ++ "\x27,\n      \x27" ++ pfx
    ++ "\x27,\n      array[\n" ++ joinRows rows ++ "\n      ]::text[][]\n    );\ncommit;\n"

/-- The observable outcome of a `sql` run: the `ctx.out` script lines in
order, the final managed-repository filesystem state, and the failure (if
the run aborted).  `ctx.err` diagnostics go to stderr and are not script
output. -/
structure SqlResult where
  out : List String
  fs : FS
  err : Option MkErr
deriving Repr, DecidableEq

/-- `MkngffControl.sql`, step for step: resolve the prefix (die 400 on a
bad fileset lookup), split it at the last `/`, check that the symlink
target exists (die 401), optionally create the symlink, walk the target,
build the rows and the `setid_target` (whose absence crashes line 214
before any output), print the `UPDATE pixels` line, then resolve the
managed repository hash (die 402 — note: AFTER the `UPDATE` was printed)
and print the filled-in `TEMPLATE`. -/
def sql (env : SqlEnv) (args : Args) (fs0 : FS) : SqlResult :=
  match get_prefix env with
  | none => ⟨[], fs0, some .wrongFilesetCount⟩
  | some pfx =>
    match env.targetTree with
    | none => ⟨[], fs0, some .symlinkTargetMissing⟩
    | some kids =>
      match (match args.symlink_repo with
             | none => (fs0, none)
             | some repo => create_symlink fs0 repo pfx args.targetComps : FS × Option MkErr) with
      | (fs1, some e) => ⟨[], fs1, some e⟩
      | (fs1, none) =>
        match buildRowsAux (rsplit1 pfx).1 (rsplit1 pfx).2
            (renderAbs args.targetComps.dropLast) (walkFSList args.targetComps kids) none with
        | (_, none) => ⟨[], fs1, some .noSetIdTarget⟩
        | (rows, some fp) =>
          match env.uuid with
          | none => ⟨[updatePixelsLine fp.2 fp.1 args.fileset_id], fs1, some .noManagedRepo⟩
          | some repoUuid =>
            ⟨[updatePixelsLine fp.2 fp.1 args.fileset_id,
              templateText args.fileset_id args.secret repoUuid
                ((rsplit1 pfx).1 ++ "/" ++ (rsplit1 pfx).2 ++ "_" ++ SUFFIX ++ "/") rows],
             fs1, none⟩

/-- `MkngffControl.symlink`: resolve the prefix, then call
`create_symlink` directly — note: with NO check that the symlink target
exists on disk. -/
def symlinkCmd (env : SqlEnv) (args : Args) (repo : String) (fs0 : FS) : FS × Option MkErr :=
  match get_prefix env with
  | none => (fs0, some .wrongFilesetCount)
  | some pfx => create_symlink fs0 repo pfx args.targetComps

/-! ## Analysis-side definitions (used to state the claims) -/

/-- The row list the `sql` operation builds from the walk (the `rows` of
lines 193-211), when the run reaches the walk at all. -/
def sqlRows (env : SqlEnv) (args : Args) : Option (List MRow) :=
  match get_prefix env, env.targetTree with
  | some pfx, some kids =>
    some (buildRowsAux (rsplit1 pfx).1 (rsplit1 pfx).2
      (renderAbs args.targetComps.dropLast) (walkFSList args.targetComps kids) none).1
  | _, _ => none

/-- The `setid_target` the `sql` operation captures, when the run reaches
the walk at all. -/
def sqlSetid (env : SqlEnv) (args : Args) : Option (Option (String × String)) :=
  match get_prefix env, env.targetTree with
  | some pfx, some kids =>
    some (buildRowsAux (rsplit1 pfx).1 (rsplit1 pfx).2
      (renderAbs args.targetComps.dropLast) (walkFSList args.targetComps kids) none).2
  | _, _ => none

/-- The new-prefix root `<templatePrefixDir>/<templatePrefixName>_<SUFFIX>/`
that `sql` prepends to every row path. -/
def newPrefixRoot (pfx : String) : String :=
  (rsplit1 pfx).1 ++ "/" ++ (rsplit1 pfx).2 ++ "_" ++ SUFFIX ++ "/"

/-- The path-rewrite formula of claim C10: the new-prefix root, followed
by the entry's parent path with EVERY occurrence of the container root's
parent path string deleted and one leading slash stripped, followed by a
trailing slash. -/
def rewrittenPath (pfx parentStr : String) (w : WRow) : String :=
  let d := replaceDel (renderAbs w.parent) parentStr
  newPrefixRoot pfx ++ (if strStartsWith d "/" then strTail d else d) ++ "/"

/-- `q` is an ancestor-or-self path of `r` (component-wise). -/
def isUnder (q r : List String) : Prop := ∃ t, q ++ t = r

/-- Membership of a node in the tree, together with the path of its parent
directory: `NodeIn root cs q node` holds when `node` is an entry of the
tree whose children are `cs` (the tree rooted at path `root`) and the
directory containing `node` has path `q`. -/
inductive NodeIn : List String → FSList → List String → FSNode → Prop
  | here {root : List String} {cs : FSList} {node : FSNode} :
      node ∈ cs.toList → NodeIn root cs root node
  | deeper {root : List String} {cs : FSList} {a : String} {ks : FSList}
      {q : List String} {node : FSNode} :
      FSNode.dir a ks ∈ cs.toList → NodeIn (root ++ [a]) ks q node →
      NodeIn root cs q node

/-- `VisitedDir root cs q n kids` holds when the walk of the tree rooted at
`root` with children `cs` examines the directory named `n` (children
`kids`) whose parent directory has path `q`: it is a direct child, or lies
inside a child directory that carries a `.zgroup` marker and no `.zarray`
marker (the only directories `walk` recurses into). -/
inductive VisitedDir : List String → FSList → List String → String → FSList → Prop
  | here {root : List String} {cs : FSList} {n : String} {kids : FSList} :
      FSNode.dir n kids ∈ cs.toList → VisitedDir root cs root n kids
  | deeper {root : List String} {cs : FSList} {a : String} {ks : FSList}
      {q : List String} {n : String} {kids : FSList} :
      FSNode.dir a ks ∈ cs.toList →
      hasName ks ".zarray" = false → hasName ks ".zgroup" = true →
      VisitedDir (root ++ [a]) ks q n kids → VisitedDir root cs q n kids

/-- No duplicate strings (a real directory cannot hold two entries of the
same name). -/
def nodupB : List String → Bool
  | [] => true
  | n :: rest => (!rest.contains n) && nodupB rest

/-- The names of the direct children. -/
def namesOf : FSList → List String
  | .nil => []
  | .cons c rest => nodeName c :: namesOf rest

mutual
/-- Well-formedness of a single node: a directory's children carry
pairwise-distinct names, recursively. -/
def wfNode : FSNode → Bool
  | .file _ => true
  | .dir _ kids => nodupB (namesOf kids) && wfChildren kids
/-- Well-formedness of every node of a children list. -/
def wfChildren : FSList → Bool
  | .nil => true
  | .cons c rest => wfNode c && wfChildren rest
end

/-- Well-formedness of a directory's children list: pairwise-distinct
names at this level and recursively below. -/
def wfFS (cs : FSList) : Bool := nodupB (namesOf cs) && wfChildren cs

/-- The transaction-script shape claimed by the specification for the
`sql` output: a `BEGIN` first, then the `UPDATE` of the pixels table, then
the `mkngff_fileset` call, then the `COMMIT`, in that textual order. -/
def claimedTransactionOrder (s : String) : Bool :=
  match firstPos s "begin;", firstPos s "UPDATE pixels",
        firstPos s "select mkngff_fileset", firstPos s "commit;" with
  | some b, some u, some p, some c => Nat.blt b u && Nat.blt u p && Nat.blt p c
  | _, _, _, _ => false

/-- The text that `ctx.out` produces on stdout: each line followed by a
newline. -/
def outText (ls : List String) : String := ls.foldl (fun a l => a ++ l ++ "\n") ""

/-- The first row (in walk order) whose name is a metadata-descriptor
filename — the row the specification says `SetIdTarget` must be. -/
def firstDescriptorRow : List MRow → Option MRow
  | [] => none
  | r :: rest =>
    if r.name == ".zattrs" || r.name == "METADATA.ome.xml" then some r
    else firstDescriptorRow rest

/-- What the row-building loop actually captures, characterized: the last
`METADATA.ome.xml` row if any exists; otherwise the accumulator if already
set; otherwise the first `.zattrs` row. -/
def setidModel (prefix_path prefix_name parentStr : String) (ws : List WRow)
    (acc : Option (String × String)) : Option (String × String) :=
  match (ws.filter (fun w => w.name == "METADATA.ome.xml")).getLast? with
  | some w => some (fullPathOf prefix_path prefix_name parentStr w.parent, w.name)
  | none =>
    match acc with
    | some a => some a
    | none =>
      (ws.filter (fun w => w.name == ".zattrs")).head?.map
        (fun w => (fullPathOf prefix_path prefix_name parentStr w.parent, w.name))

/-! ## Concrete scenarios used in counterexamples and witnesses -/

/-- Children of the array directory `g/arr` of the specification's test
tree: the `.zarray` marker and two chunk directories. -/
def treeC4arr : FSList :=
  .cons (.file ".zarray") (.cons (.dir "0" .nil) (.cons (.dir "1" .nil) .nil))

/-- Children of the group directory `g` of the specification's test tree. -/
def treeC4g : FSList :=
  .cons (.file ".zgroup") (.cons (.dir "arr" treeC4arr) .nil)

/-- The specification's test tree
`root/{a.txt, g/.zgroup, g/arr/.zarray, g/arr/0, g/arr/1}`, with the
container root living at `/data/root`. -/
def treeC4 : FSList :=
  .cons (.file "a.txt") (.cons (.dir "g" treeC4g) .nil)

/-- Environment for the `treeC4` scenario: prefix `/base/xyz`, repository
hash `u`, container root on disk. -/
def envC4 : SqlEnv := ⟨some "/base/xyz", some "u", some treeC4⟩

/-- Arguments for the `treeC4` scenario: fileset 1, default secret, no
symlink creation, target `/data/root`. -/
def argsC4 : Args := ⟨1, "TBD", none, ["data", "root"]⟩

/-- The rows the specification scenario claims `sql` emits. -/
def claimedRowsC4 : List MRow :=
  [⟨"/base/xyz_mkngff/a.txt/", "a.txt", "application/octet-stream"⟩,
   ⟨"/base/xyz_mkngff/g/", "g", "Directory"⟩,
   ⟨"/base/xyz_mkngff/g/arr/", "arr", "Directory"⟩]

/-- The rows the code actually builds in the `treeC4` scenario. -/
def actualRowsC4 : List MRow :=
  [⟨"/base/xyz_mkngff/root/", "a.txt", "application/octet-stream"⟩,
   ⟨"/base/xyz_mkngff/root/", "g", "Directory"⟩,
   ⟨"/base/xyz_mkngff/root/g/", ".zgroup", "application/octet-stream"⟩,
   ⟨"/base/xyz_mkngff/root/g/", "arr", "Directory"⟩]

/-- A container holding a `.zattrs` row first and a `METADATA.ome.xml`
row later (in walk order). -/
def treeC3 : FSList := .cons (.file ".zattrs") (.cons (.file "METADATA.ome.xml") .nil)

/-- Environment for the `treeC3` scenario: prefix `/b/x`, repository hash
`u`, container root at `/d/r`. -/
def envC3 : SqlEnv := ⟨some "/b/x", some "u", some treeC3⟩

/-- Arguments for the `treeC3` scenario. -/
def argsC3 : Args := ⟨1, "TBD", none, ["d", "r"]⟩

/-- A container with no metadata descriptor at all. -/
def treeNoDesc : FSList := .cons (.file "a") .nil

/-- Environment with a metadata-descriptor-free container (and a prefix
whose stored form carries a trailing slash). -/
def envC6 : SqlEnv := ⟨some "u/x/", none, some treeNoDesc⟩

/-- Arguments requesting symlink creation under managed repository `/R`. -/
def argsC6 : Args := ⟨1, "TBD", some "/R", ["d", "r"]⟩

/-- Managed-repository state in which the fileset directory `/R/u/x`
exists and nothing else does. -/
def fsRepo : FS := ⟨["/R/u/x"], []⟩

/-- The managed-repository state after `create_symlink fsRepo "/R" "u/x"
["d","r"]` succeeds. -/
def fsRepoAfter : FS :=
  ⟨["/R/u/x", "/R/u/x_mkngff"], [("/R/u/x_mkngff/r", "/d/r")]⟩

/-- Environment whose managed-repository lookup fails (`get_uuid` dies)
while everything else is healthy. -/
def envC7 : SqlEnv := ⟨some "/b/x", none, some treeC3⟩

/-- A container at `/data/x` that reproduces its own parent-path string
`/data` deeper inside: the walk reaches `/data/x/data/x/f`. -/
def treeC10 : FSList :=
  .cons (.file ".zattrs")
    (.cons (.dir "data" (.cons (.file ".zgroup")
      (.cons (.dir "x" (.cons (.file ".zgroup") (.cons (.file "f") .nil))) .nil))) .nil)

/-- Environment for the `treeC10` scenario. -/
def envC10 : SqlEnv := ⟨some "/base/xyz", some "u", some treeC10⟩

/-- Arguments for the `treeC10` scenario: container root `/data/x`. -/
def argsC10 : Args := ⟨1, "TBD", none, ["data", "x"]⟩

/-- The rows the code builds in the `treeC10` scenario: the inner
occurrences of `/data` are deleted as well, so entries below
`/data/x/data` land directly under `.../x/`. -/
def actualRowsC10 : List MRow :=
  [⟨"/base/xyz_mkngff/x/", ".zattrs", "application/octet-stream"⟩,
   ⟨"/base/xyz_mkngff/x/", "data", "Directory"⟩,
   ⟨"/base/xyz_mkngff/x/", ".zgroup", "application/octet-stream"⟩,
   ⟨"/base/xyz_mkngff/x/", "x", "Directory"⟩,
   ⟨"/base/xyz_mkngff/x/x/", ".zgroup", "application/octet-stream"⟩,
   ⟨"/base/xyz_mkngff/x/x/", "f", "application/octet-stream"⟩]

/-- Environment whose symlink target does not exist on disk. -/
def envC9 : SqlEnv := ⟨some "u/x", none, none⟩

end Mkngff

/-! # Theorems -/

namespace Mkngff

/-! ## List and string helper lemmas -/

theorem listIsPrefixOf_self_append (a b : List Char) : a.isPrefixOf (a ++ b) = true := by
  induction a with
  | nil => simp [List.isPrefixOf]
  | cons c rest ih => simp [List.isPrefixOf, ih]

theorem listIsPrefixOf_append_right (p l m : List Char) (h : p.isPrefixOf l = true) :
    p.isPrefixOf (l ++ m) = true := by
  induction p generalizing l with
  | nil => simp [List.isPrefixOf]
  | cons c cs ih =>
    cases l with
    | nil => simp [List.isPrefixOf] at h
    | cons d ds =>
      simp only [List.isPrefixOf, Bool.and_eq_true] at h ⊢
      exact ⟨h.1, by simpa using ih ds h.2⟩

theorem strStartsWith_stretch (b r a : String) (h : strStartsWith b a = true) :
    strStartsWith (b ++ r) a = true := by
  simp only [strStartsWith, String.data_append]
  exact listIsPrefixOf_append_right _ _ _ h

theorem strEndsWith_extend (a b s : String) (h : strEndsWith b s = true) :
    strEndsWith (a ++ b) s = true := by
  simp only [strEndsWith, List.isSuffixOf, String.data_append, List.reverse_append]
  simp only [strEndsWith, List.isSuffixOf] at h
  exact listIsPrefixOf_append_right _ _ _ h

/-! ## Row-building lemmas -/

theorem buildRowsAux_rows (pp pn ps : String) (ws : List WRow)
    (acc : Option (String × String)) :
    (buildRowsAux pp pn ps ws acc).1
      = ws.map (fun w => ⟨fullPathOf pp pn ps w.parent ++ "/", w.name, w.mime⟩) := by
  induction ws generalizing acc with
  | nil => rfl
  | cons w ws ih => simp [buildRowsAux, ih]

theorem buildRowsAux_setid (pp pn ps : String) (ws : List WRow)
    (acc : Option (String × String)) :
    (buildRowsAux pp pn ps ws acc).2 = setidModel pp pn ps ws acc := by
  induction ws generalizing acc with
  | nil => cases acc <;> simp [buildRowsAux, setidModel]
  | cons w ws ih =>
    simp only [buildRowsAux]
    rw [ih]
    by_cases hxml : w.name = "METADATA.ome.xml"
    · simp only [setidModel, descriptorStep, hxml, List.filter_cons]
      simp only [beq_self_eq_true, if_true, Bool.or_true, ite_true]
      cases hfx : (ws.filter (fun w => w.name == "METADATA.ome.xml")).getLast? with
      | none =>
        have : ws.filter (fun w => w.name == "METADATA.ome.xml") = [] := by
          cases hl : ws.filter (fun w => w.name == "METADATA.ome.xml") with
          | nil => rfl
          | cons x xs => rw [hl] at hfx; simp [List.getLast?] at hfx
        simp [this, hxml]
      | some wl =>
        cases hl : ws.filter (fun w => w.name == "METADATA.ome.xml") with
        | nil => rw [hl] at hfx; simp [List.getLast?] at hfx
        | cons x xs =>
          rw [hl] at hfx
          simp [hfx]
    · by_cases hz : w.name = ".zattrs"
      · cases acc with
        | none =>
          simp only [setidModel, descriptorStep, hz, List.filter_cons]
          simp [hxml, hz]
        | some a =>
          simp only [setidModel, descriptorStep, hz, List.filter_cons]
          simp [hxml, hz]
      · simp only [setidModel, descriptorStep, List.filter_cons]
        simp [hxml, hz]

/-! ## C3: which row becomes the SetIdTarget -/

/-- C3 is FALSE as stated: with a `.zattrs` row first and a
`METADATA.ome.xml` row later, the captured target is the
`METADATA.ome.xml` row, not the first matching row in walk order (the
Python condition's operator precedence makes every `METADATA.ome.xml` row
overwrite an already-captured target). -/
theorem C3_counterexample :
    sqlSetid envC3 argsC3 = some (some ("/b/x_mkngff/r", "METADATA.ome.xml"))
  ∧ firstDescriptorRow ((sqlRows envC3 argsC3).getD [])
      = some ⟨"/b/x_mkngff/r/", ".zattrs", "application/octet-stream"⟩
  ∧ (".zattrs" : String) ≠ "METADATA.ome.xml" := by
  refine ⟨by decide, by decide, by decide⟩

/-- C3 amended: the captured SetIdTarget is the LAST `METADATA.ome.xml`
row (in walk order) when one exists, and otherwise the first `.zattrs`
row; later `.zattrs` matches are ignored, but `METADATA.ome.xml` matches
always overwrite. -/
theorem C3_setid_amended (env : SqlEnv) (args : Args) (pfx : String) (kids : FSList)
    (h1 : get_prefix env = some pfx) (h2 : env.targetTree = some kids) :
    sqlSetid env args
      = some (setidModel (rsplit1 pfx).1 (rsplit1 pfx).2
          (renderAbs args.targetComps.dropLast) (walkFSList args.targetComps kids) none) := by
  simp [sqlSetid, h1, h2, buildRowsAux_setid]

/-- Witness: the amended characterization evaluated on the `treeC3`
scenario picks the `METADATA.ome.xml` row. -/
theorem C3_setid_amended_witness :
    sqlSetid envC3 argsC3
      = some (setidModel "/b" "x" "/d" (walkFSList ["d", "r"] treeC3) none) := by
  have h := C3_setid_amended envC3 argsC3 "/b/x" treeC3 (by decide) (by decide)
  exact h

/-! ## C4: the specification's concrete row scenario -/

/-- C4 is FALSE as stated: on the scenario tree the code builds FOUR rows
— row paths are the entries' PARENT directories rewritten (so they retain
the container directory name `root` and never name the entry itself), and
the `.zgroup` marker file inside `g` is emitted as a row of its own. -/
theorem C4_counterexample :
    sqlRows envC4 argsC4 = some actualRowsC4 ∧ actualRowsC4 ≠ claimedRowsC4 := by
  exact ⟨by decide, by decide⟩

/-- C4 amended: the rows built for the scenario tree are exactly
`actualRowsC4` (parent-directory paths under `/base/xyz_mkngff/root/`,
including a row for the `.zgroup` marker file), no row mentions the chunk
directories `0` or `1`, and — because the tree holds no metadata
descriptor — the full `sql` run aborts with the `setid_target` crash and
emits no output at all. -/
theorem C4_rows_amended :
    sqlRows envC4 argsC4 = some actualRowsC4
  ∧ actualRowsC4.all (fun r => !(r.name == "0") && !(r.name == "1")) = true
  ∧ sql envC4 argsC4 ⟨[], []⟩ = ⟨[], ⟨[], []⟩, some .noSetIdTarget⟩ := by
  refine ⟨by decide, by decide, by decide⟩

/-! ## C5: every emitted row path is rooted at the new prefix -/

theorem strStartsWith_refl (a : String) : strStartsWith a a = true := by
  have h := listIsPrefixOf_self_append a.data []
  rw [List.append_nil] at h
  exact h

/-- C5: every row the `sql` operation builds has a path that starts with
`<templatePrefixDir>/<templatePrefixName>_mkngff/` and ends with `/`. -/
theorem C5_row_path_shape (env : SqlEnv) (args : Args) (pfx : String) (rows : List MRow)
    (h1 : get_prefix env = some pfx) (h2 : sqlRows env args = some rows) :
    ∀ r ∈ rows, strStartsWith r.path (newPrefixRoot pfx) = true
      ∧ strEndsWith r.path "/" = true := by
  intro r hr
  cases hT : env.targetTree with
  | none =>
    rw [sqlRows, h1, hT] at h2
    exact absurd h2 (by simp)
  | some kids =>
    rw [sqlRows, h1, hT] at h2
    have hrows : (buildRowsAux (rsplit1 pfx).1 (rsplit1 pfx).2
        (renderAbs args.targetComps.dropLast) (walkFSList args.targetComps kids) none).1
        = rows := by
      simpa using h2
    rw [← hrows, buildRowsAux_rows] at hr
    rcases List.mem_map.mp hr with ⟨w, _, heq⟩
    rw [← heq]
    constructor
    · apply strStartsWith_stretch
      show strStartsWith
        (newPrefixRoot pfx ++
          (let row_path0 := replaceDel (renderAbs w.parent) (renderAbs args.targetComps.dropLast);
           if strStartsWith row_path0 "/" then strTail row_path0 else row_path0))
        (newPrefixRoot pfx) = true
      exact strStartsWith_stretch _ _ _ (strStartsWith_refl _)
    · exact strEndsWith_extend _ _ _ (by decide)

/-- Witness: C5 applied to the `treeC3` scenario's first row. -/
theorem C5_row_path_shape_witness :
    strStartsWith "/b/x_mkngff/r/" (newPrefixRoot "/b/x") = true
  ∧ strEndsWith "/b/x_mkngff/r/" "/" = true := by
  have h := C5_row_path_shape envC3 argsC3 "/b/x"
    [⟨"/b/x_mkngff/r/", ".zattrs", "application/octet-stream"⟩,
     ⟨"/b/x_mkngff/r/", "METADATA.ome.xml", "application/octet-stream"⟩]
    (by decide) (by decide)
  exact h ⟨"/b/x_mkngff/r/", ".zattrs", "application/octet-stream"⟩ (by decide)

/-! ## C10: the path rewrite is a global substring replacement -/

/-- C10: each built row's path is the entry's parent path rewritten by
GLOBAL deletion of the container root's parent path string (then a leading
slash stripped and the new-prefix root prepended); the `treeC10` scenario
shows an inner, non-leading occurrence of `/data` being deleted as well
(entries below `/data/x/data` land under `.../x/` instead of
`.../x/data/`). -/
theorem C10_path_rewrite (env : SqlEnv) (args : Args) (pfx : String) (kids : FSList)
    (rows : List MRow) (h1 : get_prefix env = some pfx)
    (h2 : env.targetTree = some kids) (h3 : sqlRows env args = some rows) :
    rows.map MRow.path
      = (walkFSList args.targetComps kids).map
          (rewrittenPath pfx (renderAbs args.targetComps.dropLast))
  ∧ sqlRows envC10 argsC10 = some actualRowsC10 := by
  constructor
  · rw [sqlRows, h1, h2] at h3
    have hrows : (buildRowsAux (rsplit1 pfx).1 (rsplit1 pfx).2
        (renderAbs args.targetComps.dropLast) (walkFSList args.targetComps kids) none).1
        = rows := by simpa using h3
    rw [← hrows, buildRowsAux_rows, List.map_map]
    rfl
  · decide

/-- Witness: C10 applied to the `treeC10` scenario. -/
theorem C10_path_rewrite_witness :
    actualRowsC10.map MRow.path
      = (walkFSList ["data", "x"] treeC10).map (rewrittenPath "/base/xyz" (renderAbs ["data"])) := by
  have h := C10_path_rewrite envC10 argsC10 "/base/xyz" treeC10 actualRowsC10
    (by decide) rfl (by decide)
  exact h.1

/-! ## C2: shape and order of the emitted script -/

theorem templateText_startsWith (old : Int) (uuid repo pfxr : String) (rows : List MRow) :
    strStartsWith (templateText old uuid repo pfxr rows)
      "\nbegin;\n    select mkngff_fileset(" = true := by
  unfold templateText
  repeat apply strStartsWith_stretch
  decide

theorem templateText_endsWith (old : Int) (uuid repo pfxr : String) (rows : List MRow) :
    strEndsWith (templateText old uuid repo pfxr rows) "commit;\n" = true := by
  unfold templateText
  apply strEndsWith_extend
  decide

set_option maxRecDepth 8000 in
/-- C2 is FALSE as stated: on a successful concrete run, the `UPDATE` of
the pixels table is emitted FIRST, at position 0 of the output, and
`begin;` only afterwards — the claimed order (BEGIN, then UPDATE, then the
procedure call, then COMMIT) does not hold, so the `UPDATE` is not inside
the transaction. -/
theorem C2_counterexample :
    (sql envC3 argsC3 ⟨[], []⟩).err = none
  ∧ claimedTransactionOrder (outText (sql envC3 argsC3 ⟨[], []⟩).out) = false
  ∧ firstPos (outText (sql envC3 argsC3 ⟨[], []⟩).out) "UPDATE pixels" = some 0
  ∧ firstPos (outText (sql envC3 argsC3 ⟨[], []⟩).out) "begin;" = some 126 := by
  refine ⟨by decide, by decide, by decide, by decide⟩

/-- C2 amended: every successful run emits exactly two output blocks — the
pixels `UPDATE` statement first, OUTSIDE the transaction, followed by one
self-contained transaction script that starts with `begin;`, contains the
`mkngff_fileset` call, and ends with `commit;` — so only the procedure
call, not the `UPDATE`, runs inside the transaction. -/
theorem C2_script_order_amended (env : SqlEnv) (args : Args) (fs0 : FS)
    (h : (sql env args fs0).err = none) :
    ∃ pfx fname fpath repoUuid rows,
      get_prefix env = some pfx
    ∧ (sql env args fs0).out
        = [updatePixelsLine fname fpath args.fileset_id,
           templateText args.fileset_id args.secret repoUuid (newPrefixRoot pfx) rows]
    ∧ strStartsWith (templateText args.fileset_id args.secret repoUuid (newPrefixRoot pfx) rows)
        "\nbegin;\n    select mkngff_fileset(" = true
    ∧ strEndsWith (templateText args.fileset_id args.secret repoUuid (newPrefixRoot pfx) rows)
        "commit;\n" = true := by
  cases hp : get_prefix env with
  | none => simp [sql, hp] at h
  | some pfx =>
    cases hT : env.targetTree with
    | none => simp [sql, hp, hT] at h
    | some kids =>
      cases hsr : args.symlink_repo with
      | none =>
        cases hb : buildRowsAux (rsplit1 pfx).1 (rsplit1 pfx).2
            (renderAbs args.targetComps.dropLast) (walkFSList args.targetComps kids) none with
        | mk rows setid =>
          cases setid with
          | none => simp [sql, hp, hT, hsr, hb] at h
          | some fp =>
            cases hu : env.uuid with
            | none => simp [sql, hp, hT, hsr, hb, hu] at h
            | some repoUuid =>
              refine ⟨pfx, fp.2, fp.1, repoUuid, rows, rfl, ?_,
                templateText_startsWith _ _ _ _ _, templateText_endsWith _ _ _ _ _⟩
              simp only [sql, hp, hT, hsr, hb, hu]
              rfl
      | some repo =>
        cases hcs : create_symlink fs0 repo pfx args.targetComps with
        | mk fs1 errSym =>
          cases errSym with
          | some e => simp [sql, hp, hT, hsr, hcs] at h
          | none =>
            cases hb : buildRowsAux (rsplit1 pfx).1 (rsplit1 pfx).2
                (renderAbs args.targetComps.dropLast) (walkFSList args.targetComps kids) none with
            | mk rows setid =>
              cases setid with
              | none => simp [sql, hp, hT, hsr, hcs, hb] at h
              | some fp =>
                cases hu : env.uuid with
                | none => simp [sql, hp, hT, hsr, hcs, hb, hu] at h
                | some repoUuid =>
                  refine ⟨pfx, fp.2, fp.1, repoUuid, rows, rfl, ?_,
                    templateText_startsWith _ _ _ _ _, templateText_endsWith _ _ _ _ _⟩
                  simp only [sql, hp, hT, hsr, hcs, hb, hu]
                  rfl

/-- Witness: C2 amended instantiated on the successful `treeC3` run. -/
theorem C2_script_order_amended_witness :
    ∃ pfx fname fpath repoUuid rows,
      get_prefix envC3 = some pfx
    ∧ (sql envC3 argsC3 ⟨[], []⟩).out
        = [updatePixelsLine fname fpath argsC3.fileset_id,
           templateText argsC3.fileset_id argsC3.secret repoUuid (newPrefixRoot pfx) rows]
    ∧ strStartsWith (templateText argsC3.fileset_id argsC3.secret repoUuid (newPrefixRoot pfx) rows)
        "\nbegin;\n    select mkngff_fileset(" = true
    ∧ strEndsWith (templateText argsC3.fileset_id argsC3.secret repoUuid (newPrefixRoot pfx) rows)
        "commit;\n" = true :=
  C2_script_order_amended envC3 argsC3 ⟨[], []⟩ (by decide)

/-! ## C6: a container without any metadata descriptor -/

/-- C6 is FALSE as stated: when symlink creation was requested, the mirror
directory and the symlink are created BEFORE the walk, so the
no-metadata-descriptor abort leaves the filesystem mutated (script output
is still empty). -/
theorem C6_counterexample :
    sql envC6 argsC6 fsRepo = ⟨[], fsRepoAfter, some MkErr.noSetIdTarget⟩
  ∧ fsRepoAfter ≠ fsRepo
  ∧ fsRepoAfter.symlinks ≠ fsRepo.symlinks := by
  refine ⟨by decide, by decide, by decide⟩

/-- C6 amended: when the walked tree holds no `.zattrs` and no
`METADATA.ome.xml` row, the run aborts (the uncaught line-214 crash,
modelled as `noSetIdTarget`) and emits no script output; but if symlink
creation was requested and succeeded, the filesystem keeps the mirror
directory and symlink created before the failure. -/
theorem C6_no_descriptor_amended (env : SqlEnv) (args : Args) (fs0 : FS)
    (pfx : String) (kids : FSList) (repo : String) (fs1 : FS)
    (h1 : get_prefix env = some pfx) (h2 : env.targetTree = some kids)
    (h3 : args.symlink_repo = some repo)
    (h4 : create_symlink fs0 repo pfx args.targetComps = (fs1, none))
    (h5 : ∀ w ∈ walkFSList args.targetComps kids,
            w.name ≠ ".zattrs" ∧ w.name ≠ "METADATA.ome.xml") :
    sql env args fs0 = ⟨[], fs1, some MkErr.noSetIdTarget⟩ := by
  have hsetid : (buildRowsAux (rsplit1 pfx).1 (rsplit1 pfx).2
      (renderAbs args.targetComps.dropLast) (walkFSList args.targetComps kids) none).2
      = none := by
    rw [buildRowsAux_setid]
    unfold setidModel
    have hx : (walkFSList args.targetComps kids).filter
        (fun w => w.name == "METADATA.ome.xml") = [] := by
      rw [List.filter_eq_nil_iff]
      intro w hw
      simpa using (h5 w hw).2
    have hz : (walkFSList args.targetComps kids).filter
        (fun w => w.name == ".zattrs") = [] := by
      rw [List.filter_eq_nil_iff]
      intro w hw
      simpa using (h5 w hw).1
    rw [hx, hz]
    rfl
  cases hb : buildRowsAux (rsplit1 pfx).1 (rsplit1 pfx).2
      (renderAbs args.targetComps.dropLast) (walkFSList args.targetComps kids) none with
  | mk rows setid =>
    rw [hb] at hsetid
    subst hsetid
    simp [sql, h1, h2, h3, h4, hb]

/-- Witness: C6 amended instantiated on the `treeNoDesc` scenario. -/
theorem C6_no_descriptor_amended_witness :
    sql envC6 argsC6 fsRepo = ⟨[], fsRepoAfter, some MkErr.noSetIdTarget⟩ :=
  C6_no_descriptor_amended envC6 argsC6 fsRepo "u/x" treeNoDesc "/R" fsRepoAfter
    (by decide) rfl rfl (by decide) (by decide)

/-! ## C7: which failures emit partial script text -/

theorem create_symlink_err_cases (fs : FS) (repo pfx : String) (tc : List String) (e : MkErr)
    (h : (create_symlink fs repo pfx tc).2 = some e) :
    e = MkErr.filesetDirMissing ∨ e = MkErr.symlinkExists := by
  simp only [create_symlink] at h
  split at h
  · left
    simpa using h.symm
  · split at h
    · right
      simpa using h.symm
    · simp at h

/-- C7 is FALSE as stated: when the managed-repository lookup fails, the
`UPDATE` of the pixels table has already been emitted, so a failing run
leaves partial script output (the `UPDATE` without the transaction
block). -/
theorem C7_counterexample :
    (sql envC7 argsC3 ⟨[], []⟩).err = some MkErr.noManagedRepo
  ∧ (sql envC7 argsC3 ⟨[], []⟩).out ≠ [] := by
  refine ⟨by decide, by decide⟩

/-- C7 amended: every failure except the managed-repository lookup aborts
before any script output; the managed-repository lookup runs after the
`UPDATE` line was printed, so that one failure emits exactly the `UPDATE`
line and nothing else. -/
theorem C7_failure_output_amended (env : SqlEnv) (args : Args) (fs0 : FS) (e : MkErr)
    (h : (sql env args fs0).err = some e) :
    (e ≠ MkErr.noManagedRepo → (sql env args fs0).out = [])
  ∧ (e = MkErr.noManagedRepo → ∃ fname fpath,
      (sql env args fs0).out = [updatePixelsLine fname fpath args.fileset_id]) := by
  cases hp : get_prefix env with
  | none =>
    simp only [sql, hp, Option.some.injEq] at h ⊢
    subst h
    exact ⟨fun _ => trivial, fun hc => MkErr.noConfusion hc⟩
  | some pfx =>
    cases hT : env.targetTree with
    | none =>
      simp only [sql, hp, hT, Option.some.injEq] at h ⊢
      subst h
      exact ⟨fun _ => trivial, fun hc => MkErr.noConfusion hc⟩
    | some kids =>
      cases hsr : args.symlink_repo with
      | none =>
        cases hb : buildRowsAux (rsplit1 pfx).1 (rsplit1 pfx).2
            (renderAbs args.targetComps.dropLast) (walkFSList args.targetComps kids) none with
        | mk rows setid =>
          cases setid with
          | none =>
            simp only [sql, hp, hT, hsr, hb, Option.some.injEq] at h ⊢
            subst h
            exact ⟨fun _ => trivial, fun hc => MkErr.noConfusion hc⟩
          | some fp =>
            cases hu : env.uuid with
            | none =>
              simp only [sql, hp, hT, hsr, hb, hu, Option.some.injEq] at h ⊢
              subst h
              exact ⟨fun hne => absurd rfl hne, fun _ => ⟨fp.2, fp.1, rfl⟩⟩
            | some repoUuid => simp [sql, hp, hT, hsr, hb, hu] at h
      | some repo =>
        cases hcs : create_symlink fs0 repo pfx args.targetComps with
        | mk fs1 errSym =>
          cases errSym with
          | some e2 =>
            have he2 : e2 = MkErr.filesetDirMissing ∨ e2 = MkErr.symlinkExists :=
              create_symlink_err_cases fs0 repo pfx args.targetComps e2 (by rw [hcs])
            simp only [sql, hp, hT, hsr, hcs, Option.some.injEq] at h ⊢
            subst h
            refine ⟨fun _ => trivial, fun hc => ?_⟩
            cases he2 with
            | inl h3 => rw [h3] at hc; exact MkErr.noConfusion hc
            | inr h3 => rw [h3] at hc; exact MkErr.noConfusion hc
          | none =>
            cases hb : buildRowsAux (rsplit1 pfx).1 (rsplit1 pfx).2
                (renderAbs args.targetComps.dropLast) (walkFSList args.targetComps kids) none with
            | mk rows setid =>
              cases setid with
              | none =>
                simp only [sql, hp, hT, hsr, hcs, hb, Option.some.injEq] at h ⊢
                subst h
                exact ⟨fun _ => trivial, fun hc => MkErr.noConfusion hc⟩
              | some fp =>
                cases hu : env.uuid with
                | none =>
                  simp only [sql, hp, hT, hsr, hcs, hb, hu, Option.some.injEq] at h ⊢
                  subst h
                  exact ⟨fun hne => absurd rfl hne, fun _ => ⟨fp.2, fp.1, rfl⟩⟩
                | some repoUuid => simp [sql, hp, hT, hsr, hcs, hb, hu] at h

/-- Witness: C7 amended instantiated on the failing-lookup run, showing
the partial output consists of the `UPDATE` line alone. -/
theorem C7_failure_output_amended_witness :
    ∃ fname fpath,
      (sql envC7 argsC3 ⟨[], []⟩).out = [updatePixelsLine fname fpath argsC3.fileset_id] :=
  (C7_failure_output_amended envC7 argsC3 ⟨[], []⟩ MkErr.noManagedRepo (by decide)).2 rfl

/-! ## C8: symlink creation invoked twice -/

theorem addDir_symlinks (fs : FS) (d : String) : (addDir fs d).symlinks = fs.symlinks := by
  by_cases h : d ∈ fs.dirs <;> simp [addDir, h]

theorem addDir_contains_self (fs : FS) (d : String) : (addDir fs d).dirs.contains d = true := by
  by_cases h : d ∈ fs.dirs <;> simp [addDir, h, List.elem_iff]

theorem addDir_contains_mono (fs : FS) (d x : String) (h : fs.dirs.contains x = true) :
    (addDir fs d).dirs.contains x = true := by
  rw [List.elem_iff] at h
  by_cases hc : d ∈ fs.dirs <;> simp [addDir, hc, List.elem_iff, h]

theorem addDir_of_contains (fs : FS) (d : String) (h : fs.dirs.contains d = true) :
    addDir fs d = fs := by
  rw [List.elem_iff] at h
  simp [addDir, h]

/-- C8: (a) after a successful symlink creation, repeating the identical
call leaves the filesystem state exactly as it was — the mirror-directory
creation is a no-op — and fails loudly with `FileExistsError`
(`symlinkExists`); (b) whenever the computed symlink source path already
exists (in particular as a pre-existing symlink with different content),
the call fails loudly and never touches the recorded symlinks, whatever
they point to. -/
theorem C8_symlink_collision_safety (fs fs1 : FS) (repo pfx : String) (tc : List String)
    (h1 : create_symlink fs repo pfx tc = (fs1, none)) :
    create_symlink fs1 repo pfx tc = (fs1, some MkErr.symlinkExists)
  ∧ ∀ fs2 : FS,
      existsPath (addDir fs2 (repo ++ "/" ++ pfx ++ "_" ++ SUFFIX))
        (symlinkSourcePath repo pfx tc) = true →
      fs2.dirs.contains (repo ++ "/" ++ pfx) = true →
      create_symlink fs2 repo pfx tc
        = (addDir fs2 (repo ++ "/" ++ pfx ++ "_" ++ SUFFIX), some MkErr.symlinkExists) := by
  constructor
  · simp only [create_symlink] at h1
    split at h1
    · simp at h1
    · next hc1 =>
      split at h1
      · simp at h1
      · next hex =>
        have hfs1 : ({ addDir fs (repo ++ "/" ++ pfx ++ "_" ++ SUFFIX) with
            symlinks := (addDir fs (repo ++ "/" ++ pfx ++ "_" ++ SUFFIX)).symlinks
              ++ [(repo ++ "/" ++ pfx ++ "_" ++ SUFFIX ++ "/" ++ (tc.getLast?.getD ""),
                   renderAbs tc)] } : FS) = fs1 := by
          simpa using h1
        have hpd : fs.dirs.contains (repo ++ "/" ++ pfx) = true := by
          revert hc1
          cases fs.dirs.contains (repo ++ "/" ++ pfx) <;> simp
        have hdirs1 : fs1.dirs = (addDir fs (repo ++ "/" ++ pfx ++ "_" ++ SUFFIX)).dirs := by
          rw [← hfs1]
        have hc1' : fs1.dirs.contains (repo ++ "/" ++ pfx) = true := by
          rw [hdirs1]
          exact addDir_contains_mono _ _ _ hpd
        have hcd : fs1.dirs.contains (repo ++ "/" ++ pfx ++ "_" ++ SUFFIX) = true := by
          rw [hdirs1]
          exact addDir_contains_self _ _
        have haddfs1 : addDir fs1 (repo ++ "/" ++ pfx ++ "_" ++ SUFFIX) = fs1 :=
          addDir_of_contains _ _ hcd
        have hex1 : existsPath fs1
            (repo ++ "/" ++ pfx ++ "_" ++ SUFFIX ++ "/" ++ (tc.getLast?.getD "")) = true := by
          rw [← hfs1]
          simp [existsPath]
        simp only [create_symlink, hc1', Bool.not_true, Bool.false_eq_true, if_false,
          haddfs1, hex1, if_true]
  · intro fs2 hex hc
    simp only [create_symlink, hc, Bool.not_true, Bool.false_eq_true, if_false]
    simp only [symlinkSourcePath] at hex
    simp [hex]

/-- Witness: after the successful creation on `fsRepo`, the identical
second call is rejected loudly and changes nothing. -/
theorem C8_symlink_collision_safety_witness :
    create_symlink fsRepoAfter "/R" "u/x" ["d", "r"]
      = (fsRepoAfter, some MkErr.symlinkExists) :=
  (C8_symlink_collision_safety fsRepo fsRepoAfter "/R" "u/x" ["d", "r"] (by decide)).1

/-! ## C9: behaviour when the symlink target does not exist -/

/-- C9 is FALSE as stated: the symlink-only invocation performs no
existence check on the target — with a non-existent target it succeeds
and creates the mirror directory and a dangling symlink (filesystem
mutation, no failure). -/
theorem C9_counterexample :
    envC9.targetTree = none
  ∧ symlinkCmd envC9 argsC6 "/R" fsRepo = (fsRepoAfter, none)
  ∧ fsRepoAfter ≠ fsRepo := by
  refine ⟨rfl, by decide, by decide⟩

/-- C9 amended: in the `sql` invocation the missing-target check runs
before any mutation (die 401, state unchanged); the symlink-only
invocation, however, never checks the target and creates the mirror
directory and a dangling symlink. -/
theorem C9_missing_target_amended :
    (∀ (env : SqlEnv) (args : Args) (fs0 : FS) (pfx : String),
       get_prefix env = some pfx → env.targetTree = none →
       sql env args fs0 = ⟨[], fs0, some MkErr.symlinkTargetMissing⟩)
  ∧ (∀ (env : SqlEnv) (args : Args) (repo : String) (fs0 : FS) (pfx : String),
       get_prefix env = some pfx → env.targetTree = none →
       fs0.dirs.contains (repo ++ "/" ++ pfx) = true →
       existsPath (addDir fs0 (repo ++ "/" ++ pfx ++ "_" ++ SUFFIX))
         (symlinkSourcePath repo pfx args.targetComps) = false →
       symlinkCmd env args repo fs0
         = ({ addDir fs0 (repo ++ "/" ++ pfx ++ "_" ++ SUFFIX) with
              symlinks := (addDir fs0 (repo ++ "/" ++ pfx ++ "_" ++ SUFFIX)).symlinks
                ++ [(symlinkSourcePath repo pfx args.targetComps,
                     renderAbs args.targetComps)] },
            none)) := by
  constructor
  · intro env args fs0 pfx h1 h2
    simp [sql, h1, h2]
  · intro env args repo fs0 pfx h1 h2 hc hex
    simp only [symlinkSourcePath] at hex
    simp only [symlinkCmd, h1, create_symlink, hc, Bool.not_true, Bool.false_eq_true,
      if_false, hex]
    simp [symlinkSourcePath]

/-- Witness: both halves of C9 amended at the concrete scenario — the
`sql` run dies cleanly, the symlink-only run mutates. -/
theorem C9_missing_target_amended_witness :
    sql envC9 argsC6 fsRepo = ⟨[], fsRepo, some MkErr.symlinkTargetMissing⟩
  ∧ symlinkCmd envC9 argsC6 "/R" fsRepo
      = ({ addDir fsRepo ("/R" ++ "/" ++ "u/x" ++ "_" ++ SUFFIX) with
           symlinks := (addDir fsRepo ("/R" ++ "/" ++ "u/x" ++ "_" ++ SUFFIX)).symlinks
             ++ [(symlinkSourcePath "/R" "u/x" argsC6.targetComps,
                  renderAbs argsC6.targetComps)] },
         none) :=
  ⟨C9_missing_target_amended.1 envC9 argsC6 fsRepo "u/x" (by decide) rfl,
   C9_missing_target_amended.2 envC9 argsC6 "/R" fsRepo "u/x" (by decide) rfl
     (by decide) (by decide)⟩

/-! ## C1: walker classification — supporting lemmas -/

theorem isUnder_refl (q : List String) : isUnder q q := ⟨[], List.append_nil q⟩

theorem isUnder_extend (q t : List String) : isUnder q (q ++ t) := ⟨t, rfl⟩

theorem isUnder_trans {a b c : List String} (h1 : isUnder a b) (h2 : isUnder b c) :
    isUnder a c := by
  obtain ⟨t1, e1⟩ := h1
  obtain ⟨t2, e2⟩ := h2
  exact ⟨t1 ++ t2, by rw [← List.append_assoc, e1, e2]⟩

theorem isUnder_length {q r : List String} (h : isUnder q r) : q.length ≤ r.length := by
  obtain ⟨t, e⟩ := h
  rw [← e, List.length_append]
  exact Nat.le_add_right _ _

theorem not_isUnder_snoc_self (q : List String) (a : String) : ¬ isUnder (q ++ [a]) q := by
  intro h
  have := isUnder_length h
  simp at this

theorem isUnder_snoc_inj {q r : List String} {a b : String}
    (h1 : isUnder (q ++ [a]) r) (h2 : isUnder (q ++ [b]) r) : a = b := by
  obtain ⟨t1, e1⟩ := h1
  obtain ⟨t2, e2⟩ := h2
  rw [List.append_assoc] at e1 e2
  have h3 : q ++ ([a] ++ t1) = q ++ ([b] ++ t2) := by rw [e1, e2]
  have h4 : a :: t1 = b :: t2 := by simpa using List.append_cancel_left h3
  exact (List.cons_eq_cons.mp h4).1

theorem isUnder_ne_of_snoc {root q : List String} {a : String}
    (h : isUnder (root ++ [a]) q) : q ≠ root := by
  intro he
  subst he
  exact not_isUnder_snoc_self q a h

/-! Names and well-formedness. -/

theorem namesOf_eq_map : ∀ cs : FSList, namesOf cs = cs.toList.map nodeName
  | .nil => rfl
  | .cons c rest => by
    simp [namesOf, FSList.toList, namesOf_eq_map rest]

theorem mem_namesOf {cs : FSList} {x : FSNode} (hx : x ∈ cs.toList) :
    nodeName x ∈ namesOf cs := by
  rw [namesOf_eq_map]
  exact List.mem_map.mpr ⟨x, hx, rfl⟩

theorem nodupB_not_mem {n : String} {rest : List String}
    (h : nodupB (n :: rest) = true) : n ∉ rest := by
  simp only [nodupB, Bool.and_eq_true, Bool.not_eq_true'] at h
  intro hm
  have hc : rest.contains n = true := List.elem_iff.mpr hm
  rw [hc] at h
  exact Bool.noConfusion h.1

theorem nodupB_tail {n : String} {rest : List String}
    (h : nodupB (n :: rest) = true) : nodupB rest = true := by
  simp only [nodupB, Bool.and_eq_true] at h
  exact h.2

theorem mem_name_inj : ∀ (cs : FSList), nodupB (namesOf cs) = true →
    ∀ {x y : FSNode}, x ∈ cs.toList → y ∈ cs.toList → nodeName x = nodeName y → x = y
  | .nil, _, x, y, hx, _, _ => absurd hx (by simp [FSList.toList])
  | .cons c rest, hnd, x, y, hx, hy, hn => by
    have hnd' : nodupB (nodeName c :: namesOf rest) = true := by
      simpa [namesOf] using hnd
    rcases List.mem_cons.mp hx with rfl | hx'
    · rcases List.mem_cons.mp hy with rfl | hy'
      · rfl
      · exact absurd (hn ▸ mem_namesOf hy') (nodupB_not_mem hnd')
    · rcases List.mem_cons.mp hy with rfl | hy'
      · exact absurd (hn ▸ mem_namesOf hx') (nodupB_not_mem hnd')
      · exact mem_name_inj rest (nodupB_tail hnd') hx' hy' hn

theorem wfChildren_mem : ∀ (cs : FSList), wfChildren cs = true →
    ∀ {x : FSNode}, x ∈ cs.toList → wfNode x = true
  | .nil, _, x, hx => absurd hx (by simp [FSList.toList])
  | .cons c rest, h, x, hx => by
    simp only [wfChildren, Bool.and_eq_true] at h
    rcases List.mem_cons.mp hx with rfl | hx'
    · exact h.1
    · exact wfChildren_mem rest h.2 hx'

theorem wfFS_nodup {cs : FSList} (h : wfFS cs = true) : nodupB (namesOf cs) = true := by
  simp only [wfFS, Bool.and_eq_true] at h
  exact h.1

theorem wfFS_kids {cs : FSList} (h : wfFS cs = true) {a : String} {ks : FSList}
    (hm : FSNode.dir a ks ∈ cs.toList) : wfFS ks = true := by
  simp only [wfFS, Bool.and_eq_true] at h
  have := wfChildren_mem cs h.2 hm
  simpa [wfNode, wfFS] using this

/-! Inversion of the walk. -/

theorem walkNode_mem {c : FSNode} {parent : List String} {w : WRow}
    (h : w ∈ walkNode parent c) :
    (w.parent = parent ∧ w.name = nodeName c ∧
      ((∃ s, c = FSNode.file s ∧ w.mime = "application/octet-stream")
       ∨ (∃ s kids, c = FSNode.dir s kids
            ∧ (hasName kids ".zarray" = true ∨ hasName kids ".zgroup" = true)
            ∧ w.mime = "Directory")))
  ∨ (∃ s kids, c = FSNode.dir s kids ∧ hasName kids ".zarray" = false
       ∧ hasName kids ".zgroup" = true ∧ w ∈ walkFSList (parent ++ [s]) kids) := by
  cases c with
  | file s =>
    left
    simp only [walkNode, List.mem_singleton] at h
    subst h
    exact ⟨rfl, rfl, Or.inl ⟨s, rfl, rfl⟩⟩
  | dir s kids =>
    by_cases hza : hasName kids ".zarray" = true
    · simp only [walkNode, hza, Bool.true_or, if_true, ite_true, List.mem_singleton] at h
      subst h
      exact Or.inl ⟨rfl, rfl, Or.inr ⟨s, kids, rfl, Or.inl hza, rfl⟩⟩
    · rw [Bool.not_eq_true] at hza
      by_cases hzg : hasName kids ".zgroup" = true
      · simp only [walkNode, hza, hzg, Bool.false_or, if_true, Bool.false_eq_true, if_false,
          List.mem_cons] at h
        rcases h with rfl | h'
        · exact Or.inl ⟨rfl, rfl, Or.inr ⟨s, kids, rfl, Or.inr hzg, rfl⟩⟩
        · exact Or.inr ⟨s, kids, rfl, hza, hzg, h'⟩
      · rw [Bool.not_eq_true] at hzg
        simp [walkNode, hza, hzg] at h

theorem walkFSList_mem : ∀ (cs : FSList) {parent : List String} {w : WRow},
    w ∈ walkFSList parent cs → ∃ c, c ∈ cs.toList ∧ w ∈ walkNode parent c
  | .nil, _, _, h => absurd h (by simp [walkFSList])
  | .cons c rest, parent, w, h => by
    rw [walkFSList] at h
    rcases List.mem_append.mp h with h1 | h2
    · exact ⟨c, List.mem_cons_self c _, h1⟩
    · obtain ⟨c', hc', hw⟩ := walkFSList_mem rest h2
      exact ⟨c', List.mem_cons_of_mem _ hc', hw⟩

mutual
theorem walkNode_parent_isUnder : ∀ (c : FSNode) {parent : List String} {w : WRow},
    w ∈ walkNode parent c → isUnder parent w.parent
  | .file s, parent, w, h => by
    simp only [walkNode, List.mem_singleton] at h
    subst h
    exact isUnder_refl parent
  | .dir s kids, parent, w, h => by
    by_cases hza : hasName kids ".zarray" = true
    · simp only [walkNode, hza, Bool.true_or, if_true, ite_true, List.mem_singleton] at h
      subst h
      exact isUnder_refl parent
    · rw [Bool.not_eq_true] at hza
      by_cases hzg : hasName kids ".zgroup" = true
      · simp only [walkNode, hza, hzg, Bool.false_or, if_true, Bool.false_eq_true, if_false,
          List.mem_cons] at h
        rcases h with rfl | h'
        · exact isUnder_refl parent
        · exact isUnder_trans (isUnder_extend parent [s])
            (walkFSList_parent_isUnder kids h')
      · rw [Bool.not_eq_true] at hzg
        simp [walkNode, hza, hzg] at h

theorem walkFSList_parent_isUnder : ∀ (cs : FSList) {parent : List String} {w : WRow},
    w ∈ walkFSList parent cs → isUnder parent w.parent
  | .nil, _, _, h => absurd h (by simp [walkFSList])
  | .cons c rest, parent, w, h => by
    rw [walkFSList] at h
    rcases List.mem_append.mp h with h1 | h2
    · exact walkNode_parent_isUnder c h1
    · exact walkFSList_parent_isUnder rest h2
end

theorem NodeIn_isUnder {root : List String} {cs : FSList} {q : List String} {node : FSNode}
    (h : NodeIn root cs q node) : isUnder root q := by
  induction h with
  | here _ => exact isUnder_refl _
  | deeper _ _ ih => exact isUnder_trans (isUnder_extend _ _) ih

theorem VisitedDir_isUnder {root : List String} {cs : FSList} {q : List String}
    {n : String} {kids : FSList} (h : VisitedDir root cs q n kids) : isUnder root q := by
  induction h with
  | here _ => exact isUnder_refl _
  | deeper _ _ _ _ ih => exact isUnder_trans (isUnder_extend _ _) ih

/-- A directory carrying neither marker (a chunk-payload directory) never
contributes an entry to the walk output, wherever it sits in the tree. -/
theorem chunk_not_emitted {root : List String} {cs : FSList} {q : List String}
    {n : String} {kids : FSList} (hin : NodeIn root cs q (FSNode.dir n kids)) :
    hasName kids ".zarray" = false → hasName kids ".zgroup" = false →
    wfFS cs = true → ∀ m, (⟨q, n, m⟩ : WRow) ∉ walkFSList root cs := by
  generalize hnode : FSNode.dir n kids = node at hin
  revert hnode
  induction hin with
  | here hmem =>
    intro hnode hza hzg hwf m hw
    subst hnode
    obtain ⟨c, hc, hwc⟩ := walkFSList_mem _ hw
    rcases walkNode_mem hwc with ⟨_, hname, hrest⟩ | ⟨s, ks, rfl, _, _, hw'⟩
    · have hceq : c = FSNode.dir n kids :=
        mem_name_inj _ (wfFS_nodup hwf) hc hmem (by simpa using hname.symm)
      subst hceq
      rcases hrest with ⟨s, hfs, _⟩ | ⟨s, ks, hds, hmark, _⟩
      · exact FSNode.noConfusion hfs
      · have h1 := (FSNode.dir.injEq ..).mp hds.symm
        rcases hmark with hm1 | hm1
        · rw [h1.2, hza] at hm1; exact Bool.noConfusion hm1
        · rw [h1.2, hzg] at hm1; exact Bool.noConfusion hm1
    · have := walkFSList_parent_isUnder _ hw'
      exact not_isUnder_snoc_self _ s this
  | deeper hdir hsub ih =>
    intro hnode hza hzg hwf m hw
    obtain ⟨c, hc, hwc⟩ := walkFSList_mem _ hw
    rcases walkNode_mem hwc with ⟨hpar, _, _⟩ | ⟨s, ks2, rfl, _, _, hw'⟩
    · exact isUnder_ne_of_snoc (NodeIn_isUnder hsub) hpar
    · have hsq := walkFSList_parent_isUnder _ hw'
      have hsa := isUnder_snoc_inj hsq (NodeIn_isUnder hsub)
      subst hsa
      have hceq := mem_name_inj _ (wfFS_nodup hwf) hc hdir rfl
      have hks := ((FSNode.dir.injEq ..).mp hceq).2
      subst hks
      exact ih hnode hza hzg (wfFS_kids hwf hdir) m hw'

/-- No entry strictly below an array directory (a directory carrying the
`.zarray` marker) is ever emitted, wherever that array directory sits in
the tree. -/
theorem array_descendants_not_emitted {root : List String} {cs : FSList} {q : List String}
    {n : String} {kids : FSList} (hin : NodeIn root cs q (FSNode.dir n kids)) :
    hasName kids ".zarray" = true → wfFS cs = true →
    ∀ w ∈ walkFSList root cs, ¬ isUnder (q ++ [n]) w.parent := by
  generalize hnode : FSNode.dir n kids = node at hin
  revert hnode
  induction hin with
  | here hmem =>
    intro hnode hza hwf w hw hund
    subst hnode
    obtain ⟨c, hc, hwc⟩ := walkFSList_mem _ hw
    rcases walkNode_mem hwc with ⟨hpar, _, _⟩ | ⟨s, ks2, rfl, hza2, _, hw'⟩
    · rw [hpar] at hund
      exact not_isUnder_snoc_self _ n hund
    · have hsq := walkFSList_parent_isUnder _ hw'
      have hsn : n = s := isUnder_snoc_inj hund hsq
      subst hsn
      have hceq : FSNode.dir n ks2 = FSNode.dir n kids :=
        mem_name_inj _ (wfFS_nodup hwf) hc hmem rfl
      have hks := ((FSNode.dir.injEq ..).mp hceq).2
      rw [hks, hza] at hza2
      exact Bool.noConfusion hza2
  | deeper hdir hsub ih =>
    intro hnode hza hwf w hw hund
    obtain ⟨c, hc, hwc⟩ := walkFSList_mem _ hw
    rcases walkNode_mem hwc with ⟨hpar, _, _⟩ | ⟨s, ks2, rfl, _, _, hw'⟩
    · have hchain := isUnder_trans (NodeIn_isUnder hsub)
        (isUnder_trans (isUnder_extend _ [n]) hund)
      rw [hpar] at hchain
      exact not_isUnder_snoc_self _ _ hchain
    · have hsq := walkFSList_parent_isUnder _ hw'
      have haq := isUnder_trans (NodeIn_isUnder hsub)
        (isUnder_trans (isUnder_extend _ [n]) hund)
      have hsa := isUnder_snoc_inj hsq haq
      subst hsa
      have hceq := mem_name_inj _ (wfFS_nodup hwf) hc hdir rfl
      have hks := ((FSNode.dir.injEq ..).mp hceq).2
      subst hks
      exact ih hnode hza (wfFS_kids hwf hdir) w hw' hund

/-- At a well-formed level, a marked directory child contributes its
`Directory` row exactly once to the walk of that level. -/
theorem count_level : ∀ (cs : FSList) {root : List String} {n : String} {kids : FSList},
    nodupB (namesOf cs) = true →
    FSNode.dir n kids ∈ cs.toList →
    (hasName kids ".zarray" = true ∨ hasName kids ".zgroup" = true) →
    (walkFSList root cs).count ⟨root, n, "Directory"⟩ = 1
  | .nil, _, _, _, _, hmem, _ => absurd hmem (by simp [FSList.toList])
  | .cons c rest, root, n, kids, hnd, hmem, hmark => by
    have hnd' : nodupB (nodeName c :: namesOf rest) = true := by simpa [namesOf] using hnd
    rw [walkFSList, List.count_append]
    rcases List.mem_cons.mp hmem with rfl | hmem2
    · have hcnt1 : (walkNode root (FSNode.dir n kids)).count ⟨root, n, "Directory"⟩ = 1 := by
        by_cases hza : hasName kids ".zarray" = true
        · simp [walkNode, hza, List.count_cons]
        · rw [Bool.not_eq_true] at hza
          have hzg : hasName kids ".zgroup" = true := by
            rcases hmark with hm | hm
            · rw [hza] at hm; exact Bool.noConfusion hm
            · exact hm
          have hrec0 : (walkFSList (root ++ [n]) kids).count ⟨root, n, "Directory"⟩ = 0 := by
            rw [List.count_eq_zero]
            intro hmem3
            exact not_isUnder_snoc_self root n (walkFSList_parent_isUnder _ hmem3)
          simp [walkNode, hza, hzg, List.count_cons, hrec0]
      have hcnt2 : (walkFSList root rest).count ⟨root, n, "Directory"⟩ = 0 := by
        rw [List.count_eq_zero]
        intro hmem3
        obtain ⟨c2, hc2, hwc2⟩ := walkFSList_mem _ hmem3
        rcases walkNode_mem hwc2 with ⟨_, hname, _⟩ | ⟨s, ks2, rfl, _, _, hw2⟩
        · have h5 : nodeName c2 ∈ namesOf rest := mem_namesOf hc2
          have h6 : n = nodeName c2 := by simpa using hname
          rw [← h6] at h5
          have hnd2 : nodupB (n :: namesOf rest) = true := hnd'
          exact nodupB_not_mem hnd2 h5
        · exact not_isUnder_snoc_self root s (walkFSList_parent_isUnder _ hw2)
      rw [hcnt1, hcnt2]
    · have hme : n ∈ namesOf rest := by simpa [nodeName] using mem_namesOf hmem2
      have hne : nodeName c ≠ n := fun he => nodupB_not_mem hnd' (he ▸ hme)
      have hcnt1 : (walkNode root c).count ⟨root, n, "Directory"⟩ = 0 := by
        rw [List.count_eq_zero]
        intro hmem3
        rcases walkNode_mem hmem3 with ⟨_, hname, _⟩ | ⟨s, ks2, rfl, _, _, hw2⟩
        · have h6 : n = nodeName c := by simpa using hname
          exact hne h6.symm
        · exact not_isUnder_snoc_self root s (walkFSList_parent_isUnder _ hw2)
      rw [hcnt1, count_level rest (nodupB_tail hnd') hmem2 hmark]

/-- At a well-formed level, the rows of the walk whose parent lies inside
the group child `a` are exactly those of the recursive walk of `a`. -/
theorem count_deeper : ∀ (cs : FSList) {root : List String} {a : String} {ks : FSList}
    {q : List String} {n : String},
    nodupB (namesOf cs) = true →
    FSNode.dir a ks ∈ cs.toList →
    hasName ks ".zarray" = false → hasName ks ".zgroup" = true →
    isUnder (root ++ [a]) q →
    (walkFSList root cs).count ⟨q, n, "Directory"⟩
      = (walkFSList (root ++ [a]) ks).count ⟨q, n, "Directory"⟩
  | .nil, _, _, _, _, _, _, hmem, _, _, _ => absurd hmem (by simp [FSList.toList])
  | .cons c rest, root, a, ks, q, n, hnd, hmem, hza, hzg, hund => by
    have hnd' : nodupB (nodeName c :: namesOf rest) = true := by simpa [namesOf] using hnd
    have hqne : q ≠ root := isUnder_ne_of_snoc hund
    rw [walkFSList, List.count_append]
    rcases List.mem_cons.mp hmem with rfl | hmem2
    · have hcnt1 : (walkNode root (FSNode.dir a ks)).count ⟨q, n, "Directory"⟩
          = (walkFSList (root ++ [a]) ks).count ⟨q, n, "Directory"⟩ := by
        have hne : (⟨root, a, "Directory"⟩ : WRow) ≠ ⟨q, n, "Directory"⟩ := by
          intro he
          exact hqne ((WRow.mk.injEq .. |>.mp he).1.symm)
        simp [walkNode, hza, hzg, List.count_cons, hne]
      have hcnt2 : (walkFSList root rest).count ⟨q, n, "Directory"⟩ = 0 := by
        rw [List.count_eq_zero]
        intro hm3
        obtain ⟨c2, hc2, hwc2⟩ := walkFSList_mem _ hm3
        rcases walkNode_mem hwc2 with ⟨hpar, _, _⟩ | ⟨s, ks2, rfl, _, _, hw2⟩
        · exact hqne (by simpa using hpar)
        · have hsq := walkFSList_parent_isUnder _ hw2
          have hsa := isUnder_snoc_inj hsq hund
          subst hsa
          have hnd2 : nodupB (s :: namesOf rest) = true := hnd'
          have h7 : s ∈ namesOf rest := mem_namesOf hc2
          exact nodupB_not_mem hnd2 h7
      rw [hcnt1, hcnt2]
      omega
    · have ha_mem : a ∈ namesOf rest := by simpa [nodeName] using mem_namesOf hmem2
      have hcnt1 : (walkNode root c).count ⟨q, n, "Directory"⟩ = 0 := by
        rw [List.count_eq_zero]
        intro hm3
        rcases walkNode_mem hm3 with ⟨hpar, _, _⟩ | ⟨s, ks2, rfl, _, _, hw2⟩
        · exact hqne (by simpa using hpar)
        · have hsq := walkFSList_parent_isUnder _ hw2
          have hsa := isUnder_snoc_inj hsq hund
          subst hsa
          have hnd2 : nodupB (s :: namesOf rest) = true := hnd'
          exact nodupB_not_mem hnd2 ha_mem
      rw [hcnt1, count_deeper rest (nodupB_tail hnd') hmem2 hza hzg hund]
      omega

/-- Every array directory the walk actually examines is emitted exactly
once. -/
theorem visited_array_count {root : List String} {cs : FSList} {q : List String}
    {n : String} {kids : FSList} (hv : VisitedDir root cs q n kids) :
    hasName kids ".zarray" = true → wfFS cs = true →
    (walkFSList root cs).count ⟨q, n, "Directory"⟩ = 1 := by
  induction hv with
  | here hmem =>
    intro hza hwf
    exact count_level _ (wfFS_nodup hwf) hmem (Or.inl hza)
  | deeper hdir hza2 hzg2 hv2 ih =>
    intro hza hwf
    rw [count_deeper _ (wfFS_nodup hwf) hdir hza2 hzg2 (VisitedDir_isUnder hv2)]
    exact ih hza (wfFS_kids hwf hdir)

/-- C1: over any well-formed container tree, (1) a directory carrying
neither the `.zarray` nor the `.zgroup` marker is never emitted, wherever
it sits; (2) no entry whose parent lies at or below an array directory is
ever emitted — the walk never recurses beneath an array directory; (3)
every array directory the walk examines (a direct child, or one reached
through recursed group directories) is emitted exactly once. -/
theorem C1_walker_classification (root : List String) (cs : FSList) (hwf : wfFS cs = true) :
    (∀ q n kids, NodeIn root cs q (FSNode.dir n kids) →
       hasName kids ".zarray" = false → hasName kids ".zgroup" = false →
       ∀ m, (⟨q, n, m⟩ : WRow) ∉ walkFSList root cs)
  ∧ (∀ q n kids, NodeIn root cs q (FSNode.dir n kids) →
       hasName kids ".zarray" = true →
       ∀ w ∈ walkFSList root cs, ¬ isUnder (q ++ [n]) w.parent)
  ∧ (∀ q n kids, VisitedDir root cs q n kids →
       hasName kids ".zarray" = true →
       (walkFSList root cs).count ⟨q, n, "Directory"⟩ = 1) :=
  ⟨fun _ _ _ hin hza hzg => chunk_not_emitted hin hza hzg hwf,
   fun _ _ _ hin hza => array_descendants_not_emitted hin hza hwf,
   fun _ _ _ hv hza => visited_array_count hv hza hwf⟩

/-- Witness: on the specification's test tree, the chunk directory
`g/arr/0` is never emitted and the array directory `g/arr` is emitted
exactly once. -/
theorem C1_walker_classification_witness :
    (⟨["data", "root", "g", "arr"], "0", "Directory"⟩ : WRow)
        ∉ walkFSList ["data", "root"] treeC4
  ∧ (walkFSList ["data", "root"] treeC4).count
        ⟨["data", "root", "g"], "arr", "Directory"⟩ = 1 := by
  have h := C1_walker_classification ["data", "root"] treeC4 (by decide)
  constructor
  · exact h.1 ["data", "root", "g", "arr"] "0" FSList.nil
      (NodeIn.deeper (show FSNode.dir "g" treeC4g ∈ treeC4.toList by decide)
        (NodeIn.deeper (show FSNode.dir "arr" treeC4arr ∈ treeC4g.toList by decide)
          (NodeIn.here (show FSNode.dir "0" FSList.nil ∈ treeC4arr.toList by decide))))
      rfl rfl "Directory"
  · exact h.2.2 ["data", "root", "g"] "arr" treeC4arr
      (VisitedDir.deeper (show FSNode.dir "g" treeC4g ∈ treeC4.toList by decide) rfl rfl
        (VisitedDir.here (show FSNode.dir "arr" treeC4arr ∈ treeC4g.toList by decide)))
      rfl

end Mkngff
